import Mathlib

/-!
# Verification of the tofuboi bounded-size text delivery engine

This file embeds the algorithmic core of the tofuboi repository in Lean and
proves (or refutes) the properties its specification states about it.

Rust strings are modelled as lists of bytes (`List Nat`, each entry a byte
value), so that byte indices, UTF-8 code-point boundaries and byte-oriented
slicing can be stated exactly as the source computes them.

Embedded source functions:
* `src/formatter.rs`  : `split_safe_utf8` (with its index loop and the
  backward boundary walk),
* `src/main.rs`       : the accumulation loop of `send_transcript`
  (`MAX_CHUNK_SIZE`, the raw byte chunking of oversized fragments, the
  UTF-8 re-validation filter, the flush conditions and the space separator),
  and `select_fallback_language`,
* `src/transcript.rs` : `TranscriptService::select_fallback_language`,
  and the fallback-retry control flow shared with `handle_message`.
-/

namespace Tofuboi

/-! ## Definitions: the embedded data model and operations -/

/-! ## Byte-level model of `str::is_char_boundary` -/

/-- Model of Rust `str::is_char_boundary` on a byte list: index 0 is always a
boundary, an in-range index is a boundary iff its byte is not a UTF-8
continuation byte (`b < 0x80 || b >= 0xC0`), and an out-of-range index is a
boundary iff it equals the length. -/

def isCharBoundary (s : List Nat) (i : Nat) : Bool :=
  if i = 0 then true
  else match s[i]? with
    | some b => decide (b < 128 ∨ 192 ≤ b)
    | none => decide (i = s.length)

/-- Model of the backward boundary walk of `split_safe_utf8`
(`while !s.is_char_boundary(end) { end -= 1; }`): starting from a candidate
index, step back until a char boundary is reached.  Since index 0 is always
a boundary the Rust loop stops at 0 at the latest, which the `0` case
records. -/

def findBoundaryBack (s : List Nat) : Nat → Nat
  | 0 => 0
  | e + 1 => if isCharBoundary s (e + 1) then e + 1 else findBoundaryBack s e

/-! ## `split_safe_utf8` (src/formatter.rs) -/

/-- Error values of `split_safe_utf8`.  `invalidBudget` stands for the string
"max_bytes must be greater than zero" and `budgetTooSmall` for
"max_bytes is too small to fit the next character". -/

inductive SplitError where
  | invalidBudget
  | budgetTooSmall
deriving DecidableEq

/-- Model of the `while start < s.len()` loop of `split_safe_utf8`.  Each
iteration either pushes the remaining suffix (when it fits in `maxBytes`),
or moves the candidate end `start + maxBytes` backward to a char boundary,
errors when the walk comes back to `start`, or pushes `s[start..e]` and
continues from `e`.  In every call reachable from `split_safe_utf8`,
`start` is a char boundary, so the backward walk stops no lower than
`start`; the guard is therefore written `e ≤ start` (the Rust check is
`end == start`), which also makes termination evident. -/

def splitLoop (s : List Nat) (maxBytes : Nat) (start : Nat) :
    Except SplitError (List (List Nat)) :=
  if start < s.length then
    if s.length - start ≤ maxBytes then
      Except.ok [s.drop start]
    else
      let e := findBoundaryBack s (start + maxBytes)
      if e ≤ start then
        Except.error SplitError.budgetTooSmall
      else
        match splitLoop s maxBytes e with
        | Except.ok rest => Except.ok (((s.drop start).take (e - start)) :: rest)
        | Except.error err => Except.error err
  else
    Except.ok []
termination_by s.length - start
decreasing_by
  have h4 : findBoundaryBack s (start + maxBytes) ≤ start + maxBytes := by
    generalize start + maxBytes = n
    induction n with
    | zero => simp [findBoundaryBack]
    | succ e ih =>
      simp only [findBoundaryBack]
      split
      · exact Nat.le_refl _
      · exact Nat.le_trans ih (Nat.le_succ e)
  omega

/-- Model of `split_safe_utf8` from src/formatter.rs: reject a zero budget,
then run the splitting loop from index 0. -/

def split_safe_utf8 (s : List Nat) (maxBytes : Nat) :
    Except SplitError (List (List Nat)) :=
  if maxBytes = 0 then Except.error SplitError.invalidBudget
  else splitLoop s maxBytes 0

/-- Decidable formalisation of "some single character of `s` has byte length
greater than `b`": some in-range char boundary `i` is followed by no char
boundary within the next `b` positions, i.e. the character starting at `i`
occupies more than `b` bytes. -/

def hasOversizedChar (s : List Nat) (b : Nat) : Bool :=
  (List.range s.length).any fun i =>
    isCharBoundary s i && (List.range' (i + 1) b).all fun j => !isCharBoundary s j

/-! ## The accumulation loop of `send_transcript` (src/main.rs) -/

/-- Byte automaton of the validation performed by `std::str::from_utf8`
(`run_utf8_validation`, RFC 3629): `pending` is the number of continuation
bytes still expected and `[lo, hi]` the admissible range of the next one
(narrowed after `0xE0`, `0xED`, `0xF0` and `0xF4` to exclude overlong
encodings, surrogates and values above U+10FFFF; subsequent continuations
use `[0x80, 0xBF]`).  When no continuation is pending, the byte must be
ASCII or a valid leading byte (`0xC2`–`0xF4`). -/

def validUtf8Aux (pending lo hi : Nat) : List Nat → Bool
  | [] => pending = 0
  | b :: t =>
    if pending = 0 then
      if b ≤ 127 then validUtf8Aux 0 0 0 t
      else if b ≤ 193 then false
      else if b ≤ 223 then validUtf8Aux 1 128 191 t
      else if b = 224 then validUtf8Aux 2 160 191 t
      else if b = 237 then validUtf8Aux 2 128 159 t
      else if b ≤ 239 then validUtf8Aux 2 128 191 t
      else if b = 240 then validUtf8Aux 3 144 191 t
      else if b = 244 then validUtf8Aux 3 128 143 t
      else if b ≤ 244 then validUtf8Aux 3 128 191 t
      else false
    else
      if lo ≤ b ∧ b ≤ hi then validUtf8Aux (pending - 1) 128 191 t else false

/-- Model of the check `std::str::from_utf8(chunk).is_ok()`: run the UTF-8
validation automaton from its initial state. -/

def validUtf8 (l : List Nat) : Bool := validUtf8Aux 0 0 0 l

/-- Model of `slice::chunks` as used on `text.as_bytes()`: successive pieces
of `chunkSize` bytes, the last piece possibly shorter.  Rust panics when the
chunk size is zero; `send_transcript` only ever calls it with the constant
`MAX_CHUNK_SIZE = 4000`, so the `chunkSize = 0` case is unreachable and
merely keeps the model total. -/

def byteChunks (chunkSize : Nat) (l : List Nat) : List (List Nat) :=
  if hz : chunkSize = 0 then []
  else if hl : l = [] then []
  else l.take chunkSize :: byteChunks chunkSize (l.drop chunkSize)
termination_by l.length
decreasing_by
  have h1 : 0 < l.length := List.length_pos.mpr hl
  simp only [List.length_drop]
  omega

/-- Budget constant of `send_transcript` (src/main.rs line 123). -/

def MAX_CHUNK_SIZE : Nat := 4000

/-- State of the accumulation loop: the messages passed to the sender so far
(in order) and the current buffer (`current_chunk`). -/

abbrev SendState := List (List Nat) × List Nat

/-- Model of one iteration of the `for entry in transcript` loop of
`send_transcript`, on the already-decoded fragment text (HTML-entity
decoding is a preprocessing step external to the accumulator).

If the fragment is longer than the budget, any non-empty buffer is flushed,
and the fragment is cut at raw `b`-byte offsets; each raw chunk is sent only
when it passes UTF-8 validation (`if let Ok(chunk_str) = from_utf8(chunk)`),
otherwise it is silently skipped.  Otherwise, when appending the fragment
(plus one separator byte) would exceed the budget, the buffer is sent
unconditionally — even when it is empty — and cleared; finally the fragment
is appended, preceded by a space when the buffer was non-empty. -/

def sendStep (b : Nat) (st : SendState) (text : List Nat) : SendState :=
  if b < text.length then
    ((if st.2 = [] then st.1 else st.1 ++ [st.2]) ++
       (byteChunks b text).filter validUtf8, [])
  else if b < st.2.length + text.length + 1 then
    (st.1 ++ [st.2], text)
  else
    (st.1, if st.2 = [] then text else st.2 ++ 32 :: text)

/-- Model of the accumulation loop of `send_transcript`: the ordered list of
messages passed to the sender while consuming the fragments, including the
final flush of a non-empty buffer.  The early return for an empty transcript
(lines 114–121 of src/main.rs) sends a fixed notice instead of running the
loop; it is a caller-visible signal, not an accumulator emission, and is not
part of this model. -/

def send_transcript (b : Nat) (transcript : List (List Nat)) : List (List Nat) :=
  let st := transcript.foldl (sendStep b) ([], [])
  if st.2 = [] then st.1 else st.1 ++ [st.2]

/-! ## `select_fallback_language` (src/main.rs) -/

/-- Model of Rust `str::starts_with` on the character sequence of the
string; since the pattern and the string are valid UTF-8, byte-prefix and
character-prefix agree. -/

def strStartsWith (s pat : String) : Bool := pat.data.isPrefixOf s.data

/-- Model of `select_fallback_language` from src/main.rs: the `for` loops
returning on the first hit are the corresponding `List.find?` scans, and
`first().cloned().unwrap_or_else(|| "en")` is `headD "en"`. -/

def select_fallback_language (available_langs : List String) (preferred : List String) :
    String :=
  match preferred.find? (fun lang => available_langs.contains lang) with
  | some lang => lang
  | none =>
    match available_langs.find? (fun l => strStartsWith l "zh") with
    | some lang => lang
    | none => available_langs.headD "en"

/-! ## `TranscriptService` (src/transcript.rs) -/

namespace TranscriptService

/-- Model of `TranscriptService::select_fallback_language` from
src/transcript.rs, which is textually identical to the version in
src/main.rs. -/

def select_fallback_language (available_langs : List String) (preferred : List String) :
    String :=
  match preferred.find? (fun lang => available_langs.contains lang) with
  | some lang => lang
  | none =>
    match available_langs.find? (fun l => strStartsWith l "zh") with
    | some lang => lang
    | none => available_langs.headD "en"

end TranscriptService

/-! ## The fetch-and-retry control flow of `handle_message` (src/main.rs) -/

/-- Failures of the fetch collaborator, as `handle_message` distinguishes
them: the language-unavailable variant carrying the available languages
(`TranscriptNotAvailableLanguage`), and every other error, kept abstract. -/

inductive FetchError (ε : Type) where
  | langUnavailable (availableLangs : List String)
  | other (e : ε)
deriving DecidableEq

/-- What the user observes at the end of `handle_message`'s fetch logic:
either a delivered transcript or a surfaced fetch error (rendered as
"Error fetching transcript: {e}"). -/

inductive MessageOutcome (ε : Type) where
  | delivered (transcript : List (List Nat))
  | surfacedError (e : FetchError ε)
deriving DecidableEq

/-- Preference list passed to the fallback selector by `handle_message`. -/

def fallbackPreference : List String := ["en", "zh-HK", "zh-TW"]

/-- Model of the fetch control flow of `handle_message` for a fixed video:
the external fetch collaborator is a function from the requested language to
a result.  Returns the ordered list of languages the fetch was invoked with,
together with the outcome.  On `langUnavailable` the fallback selector is
consulted and the fetch retried exactly once; any error of that retry is
surfaced as is.  Any other first-fetch error is surfaced without consulting
the selector.  (The informational "Retrying with fallback language" notice
sent to the chat between the two fetches carries no control flow and is not
part of this model.) -/

def handle_message_fetch {ε : Type} (fetch : String → Except (FetchError ε) (List (List Nat)))
    (requested : String) : List String × MessageOutcome ε :=
  match fetch requested with
  | Except.ok t => ([requested], MessageOutcome.delivered t)
  | Except.error (FetchError.langUnavailable availableLangs) =>
    let fallback := select_fallback_language availableLangs fallbackPreference
    match fetch fallback with
    | Except.ok t => ([requested, fallback], MessageOutcome.delivered t)
    | Except.error e => ([requested, fallback], MessageOutcome.surfacedError e)
  | Except.error (FetchError.other e) => ([requested], MessageOutcome.surfacedError (FetchError.other e))

/-! ### Concrete fragments exercising the oversized-fragment path -/

/-- Fragment of 4002 bytes: 3999 ASCII bytes `a` followed by the 3-byte
character U+4E16 (bytes `E4 B8 96`).  Its byte length exceeds
`MAX_CHUNK_SIZE`, and the raw cut after 4000 bytes falls inside the
multi-byte character. -/

def frag0 : List Nat := List.replicate 3999 97 ++ [228, 184, 150]

/-- Fragment of exactly `MAX_CHUNK_SIZE` bytes (4000 ASCII bytes `a`). -/

def frag1 : List Nat := List.replicate 4000 97

/-! ## First-match characterisation used to state the selector claims -/

/-- Statement-level predicate: `x` is the first element of `l` satisfying
`p` (everything before it fails `p`). -/

def firstSuchThat {α : Type} (p : α → Bool) (l : List α) (x : α) : Prop :=
  ∃ l1 l2, l = l1 ++ x :: l2 ∧ p x = true ∧ ∀ y ∈ l1, p y = false

/-- Fetch collaborator used to witness claim C9: "fr" is unavailable with
available languages ["es", "zh-HK"]; the fallback "zh-HK" then fails with an
opaque error. -/

def fetchW : String → Except (FetchError Nat) (List (List Nat)) := fun l =>
  if l = "fr" then Except.error (FetchError.langUnavailable ["es", "zh-HK"])
  else if l = "zh-HK" then Except.error (FetchError.other 7)
  else Except.ok []

/-! ## Theorems -/

theorem isCharBoundary_zero (s : List Nat) : isCharBoundary s 0 = true := by
  simp [isCharBoundary]

theorem isCharBoundary_length (s : List Nat) : isCharBoundary s s.length = true := by
  unfold isCharBoundary
  by_cases h : s.length = 0
  · simp [h]
  · simp [h]

theorem findBoundaryBack_le (s : List Nat) (n : Nat) : findBoundaryBack s n ≤ n := by
  induction n with
  | zero => simp [findBoundaryBack]
  | succ e ih =>
    simp only [findBoundaryBack]
    split
    · exact Nat.le_refl _
    · exact Nat.le_trans ih (Nat.le_succ e)

theorem findBoundaryBack_isBoundary (s : List Nat) (n : Nat) :
    isCharBoundary s (findBoundaryBack s n) = true := by
  induction n with
  | zero => simpa [findBoundaryBack] using isCharBoundary_zero s
  | succ e ih =>
    simp only [findBoundaryBack]
    split
    · assumption
    · exact ih

theorem findBoundaryBack_maximal (s : List Nat) (n : Nat) :
    ∀ j, findBoundaryBack s n < j → j ≤ n → isCharBoundary s j = false := by
  induction n with
  | zero =>
    intro j h1 h2
    omega
  | succ e ih =>
    intro j h1 h2
    simp only [findBoundaryBack] at h1
    by_cases hb : isCharBoundary s (e + 1) = true
    · simp [hb] at h1
      omega
    · simp [hb] at h1
      rcases Nat.lt_or_ge j (e + 1) with hj | hj
      · exact ih j h1 (by omega)
      · have : j = e + 1 := by omega
        subst this
        simpa using hb

theorem le_findBoundaryBack (s : List Nat) (n m : Nat)
    (hb : isCharBoundary s m = true) (hmn : m ≤ n) : m ≤ findBoundaryBack s n := by
  induction n with
  | zero => omega
  | succ e ih =>
    simp only [findBoundaryBack]
    by_cases hbe : isCharBoundary s (e + 1) = true
    · simp [hbe]; omega
    · simp [hbe]
      rcases Nat.lt_or_ge m (e + 1) with hm | hm
      · exact ih (by omega)
      · have : m = e + 1 := by omega
        subst this
        simp [hbe] at hb

/-! ### Round-trip: the chunks concatenate back to the input -/

theorem splitLoop_flatten (s : List Nat) (b : Nat) :
    ∀ start l, splitLoop s b start = Except.ok l → l.flatten = s.drop start := by
  intro start
  induction start using splitLoop.induct s b with
  | case1 x hx hrem =>
    intro l h
    rw [splitLoop.eq_def] at h
    simp [hx, hrem] at h
    subst h
    simp
  | case2 x hx hrem e he =>
    intro l h
    rw [splitLoop.eq_def] at h
    simp [hx, hrem, he] at h
  | case3 x hx hrem e he rest hrest ih =>
    intro l h
    rw [splitLoop.eq_def] at h
    simp only [if_pos hx, if_neg hrem, if_neg he] at h
    rw [hrest] at h
    simp only [Except.ok.injEq] at h
    subst h
    have hflat : rest.flatten = s.drop e := ih rest hrest
    simp only [List.flatten_cons, hflat]
    have hxe : x ≤ e := Nat.le_of_not_le (by omega)
    have hdrop : s.drop e = (s.drop x).drop (e - x) := by
      rw [List.drop_drop]
      congr 1
      omega
    rw [hdrop, List.take_append_drop]
  | case4 x hx hrem e he err herr ih =>
    intro l h
    rw [splitLoop.eq_def] at h
    simp only [if_pos hx, if_neg hrem, if_neg he] at h
    rw [herr] at h
    simp at h
  | case5 x hx =>
    intro l h
    rw [splitLoop.eq_def] at h
    simp [hx] at h
    subst h
    simp [List.drop_eq_nil_of_le (Nat.le_of_not_lt hx)]

/-! ### Shape of the produced chunks -/

theorem splitLoop_chunks (s : List Nat) (b : Nat) :
    ∀ start l, isCharBoundary s start = true → splitLoop s b start = Except.ok l →
      ∀ c ∈ l, 1 ≤ c.length ∧ c.length ≤ b ∧
        ∃ i j, i < j ∧ j ≤ s.length ∧ isCharBoundary s i = true ∧
          isCharBoundary s j = true ∧ c = (s.drop i).take (j - i) := by
  intro start
  induction start using splitLoop.induct s b with
  | case1 x hx hrem =>
    intro l hbd h c hc
    rw [splitLoop.eq_def] at h
    simp [hx, hrem] at h
    subst h
    simp only [List.mem_singleton] at hc
    subst hc
    refine ⟨by simp [List.length_drop]; omega, by simp [List.length_drop]; omega,
      x, s.length, hx, Nat.le_refl _, hbd, isCharBoundary_length s, ?_⟩
    rw [List.take_of_length_le]
    simp [List.length_drop]
  | case2 x hx hrem e he =>
    intro l hbd h
    rw [splitLoop.eq_def] at h
    simp [hx, hrem, he] at h
  | case3 x hx hrem e he rest hrest ih =>
    intro l hbd h c hc
    rw [splitLoop.eq_def] at h
    simp only [if_pos hx, if_neg hrem, if_neg he] at h
    rw [hrest] at h
    simp only [Except.ok.injEq] at h
    subst h
    have hfble := findBoundaryBack_le s (x + b)
    have hfbd := findBoundaryBack_isBoundary s (x + b)
    have hxe : x < e := by omega
    have helen : e < s.length := by omega
    rcases List.mem_cons.mp hc with hc | hc
    · subst hc
      refine ⟨?_, ?_, x, e, hxe, Nat.le_of_lt helen, hbd, hfbd, rfl⟩
      · simp [List.length_take, List.length_drop]
        omega
      · simp [List.length_take, List.length_drop]
        omega
    · exact ih rest hfbd hrest c hc
  | case4 x hx hrem e he err herr ih =>
    intro l hbd h
    rw [splitLoop.eq_def] at h
    simp only [if_pos hx, if_neg hrem, if_neg he] at h
    rw [herr] at h
    simp at h
  | case5 x hx =>
    intro l hbd h
    rw [splitLoop.eq_def] at h
    simp [hx] at h
    subst h
    simp

/-! ### Characterisation of the failure cases -/

theorem splitLoop_ne_invalidBudget (s : List Nat) (b : Nat) :
    ∀ start, splitLoop s b start ≠ Except.error SplitError.invalidBudget := by
  intro start
  induction start using splitLoop.induct s b with
  | case1 x hx hrem =>
    rw [splitLoop.eq_def]
    simp [hx, hrem]
  | case2 x hx hrem e he =>
    rw [splitLoop.eq_def]
    simp [hx, hrem, he]
  | case3 x hx hrem e he rest hrest ih =>
    rw [splitLoop.eq_def]
    simp only [if_pos hx, if_neg hrem, if_neg he]
    rw [hrest]
    simp
  | case4 x hx hrem e he err herr ih =>
    rw [splitLoop.eq_def]
    simp only [if_pos hx, if_neg hrem, if_neg he]
    rw [herr]
    simp only [ne_eq, Except.error.injEq]
    intro hcontra
    subst hcontra
    rw [herr] at ih
    simp at ih
  | case5 x hx =>
    rw [splitLoop.eq_def]
    simp [hx]

theorem splitLoop_ok_no_big_char (s : List Nat) (b : Nat) :
    ∀ start l, isCharBoundary s start = true → splitLoop s b start = Except.ok l →
      ∀ i, start ≤ i → i < s.length → isCharBoundary s i = true →
        ∃ j, i < j ∧ j ≤ i + b ∧ isCharBoundary s j = true := by
  intro start
  induction start using splitLoop.induct s b with
  | case1 x hx hrem =>
    intro l hbd h i hxi hilen hib
    exact ⟨s.length, hilen, by omega, isCharBoundary_length s⟩
  | case2 x hx hrem e he =>
    intro l hbd h
    rw [splitLoop.eq_def] at h
    simp [hx, hrem, he] at h
  | case3 x hx hrem e he rest hrest ih =>
    intro l hbd h i hxi hilen hib
    have hfble := findBoundaryBack_le s (x + b)
    have hfbd := findBoundaryBack_isBoundary s (x + b)
    rcases Nat.lt_or_ge i e with hie | hie
    · exact ⟨e, hie, by omega, hfbd⟩
    · exact ih rest hfbd hrest i hie hilen hib
  | case4 x hx hrem e he err herr ih =>
    intro l hbd h
    rw [splitLoop.eq_def] at h
    simp only [if_pos hx, if_neg hrem, if_neg he] at h
    rw [herr] at h
    simp at h
  | case5 x hx =>
    intro l hbd h i hxi hilen hib
    omega

theorem splitLoop_err_big_char (s : List Nat) (b : Nat) :
    ∀ start, isCharBoundary s start = true →
      splitLoop s b start = Except.error SplitError.budgetTooSmall →
      ∃ i, start ≤ i ∧ i < s.length ∧ isCharBoundary s i = true ∧
        ∀ j, i < j → j ≤ i + b → isCharBoundary s j = false := by
  intro start
  induction start using splitLoop.induct s b with
  | case1 x hx hrem =>
    intro hbd h
    rw [splitLoop.eq_def] at h
    simp [hx, hrem] at h
  | case2 x hx hrem e he =>
    intro hbd h
    have hge := le_findBoundaryBack s (x + b) x hbd (by omega)
    refine ⟨x, Nat.le_refl x, hx, hbd, ?_⟩
    intro j h1 h2
    exact findBoundaryBack_maximal s (x + b) j (by omega) (by omega)
  | case3 x hx hrem e he rest hrest ih =>
    intro hbd h
    rw [splitLoop.eq_def] at h
    simp only [if_pos hx, if_neg hrem, if_neg he] at h
    rw [hrest] at h
    simp at h
  | case4 x hx hrem e he err herr ih =>
    intro hbd h
    rw [splitLoop.eq_def] at h
    simp only [if_pos hx, if_neg hrem, if_neg he] at h
    rw [herr] at h
    simp only [Except.error.injEq] at h
    subst h
    have hfbd := findBoundaryBack_isBoundary s (x + b)
    rcases ih hfbd herr with ⟨i, hei, hrest2⟩
    exact ⟨i, by omega, hrest2⟩
  | case5 x hx =>
    intro hbd h
    rw [splitLoop.eq_def] at h
    simp [hx] at h

theorem hasOversizedChar_iff (s : List Nat) (b : Nat) :
    hasOversizedChar s b = true ↔
      ∃ i, i < s.length ∧ isCharBoundary s i = true ∧
        ∀ j, i < j → j ≤ i + b → isCharBoundary s j = false := by
  simp only [hasOversizedChar, List.any_eq_true, List.mem_range, List.all_eq_true,
    List.mem_range'_1, Bool.and_eq_true, Bool.not_eq_true']
  constructor
  · rintro ⟨i, hi, hbd, hall⟩
    exact ⟨i, hi, hbd, fun j h1 h2 => hall j ⟨by omega, by omega⟩⟩
  · rintro ⟨i, hi, hbd, hall⟩
    exact ⟨i, hi, hbd, fun j hj => hall j (by omega) (by omega)⟩

/-! ### Size bound of the accumulator -/

theorem byteChunks_length_le (n : Nat) :
    ∀ l, ∀ c ∈ byteChunks n l, c.length ≤ n := by
  intro l
  induction l using byteChunks.induct n with
  | case1 l hz =>
    rw [byteChunks.eq_def]
    simp [hz]
  | case2 hz =>
    rw [byteChunks.eq_def]
    simp [hz]
  | case3 l hz hl ih =>
    rw [byteChunks.eq_def]
    simp only [dif_neg hz, dif_neg hl]
    intro c hc
    rcases List.mem_cons.mp hc with hc | hc
    · subst hc
      simp [List.length_take]
    · exact ih c hc

theorem sendStep_bound (b : Nat) (st : SendState) (text : List Nat)
    (h1 : ∀ m ∈ st.1, m.length ≤ b) (h2 : st.2.length ≤ b) :
    (∀ m ∈ (sendStep b st text).1, m.length ≤ b) ∧
      (sendStep b st text).2.length ≤ b := by
  unfold sendStep
  by_cases hover : b < text.length
  · simp only [if_pos hover]
    refine ⟨?_, by simp⟩
    intro m hm
    simp only [List.mem_append] at hm
    rcases hm with hm | hm
    · split at hm
      · exact h1 m hm
      · rcases List.mem_append.mp hm with hm | hm
        · exact h1 m hm
        · simp only [List.mem_singleton] at hm
          subst hm
          exact h2
    · exact byteChunks_length_le b text m (List.mem_filter.mp hm).1
  · simp only [if_neg hover]
    have htext : text.length ≤ b := Nat.le_of_not_lt hover
    by_cases hflush : b < st.2.length + text.length + 1
    · simp only [if_pos hflush]
      refine ⟨?_, htext⟩
      intro m hm
      rcases List.mem_append.mp hm with hm | hm
      · exact h1 m hm
      · simp only [List.mem_singleton] at hm
        subst hm
        exact h2
    · simp only [if_neg hflush]
      refine ⟨h1, ?_⟩
      split
      · exact htext
      · simp only [List.length_append, List.length_cons]
        omega

theorem sendLoop_bound (b : Nat) (ts : List (List Nat)) :
    ∀ st : SendState, (∀ m ∈ st.1, m.length ≤ b) → st.2.length ≤ b →
      (∀ m ∈ (ts.foldl (sendStep b) st).1, m.length ≤ b) ∧
        (ts.foldl (sendStep b) st).2.length ≤ b := by
  induction ts with
  | nil => intro st h1 h2; exact ⟨h1, h2⟩
  | cons t ts ih =>
    intro st h1 h2
    have hstep := sendStep_bound b st t h1 h2
    exact ih (sendStep b st t) hstep.1 hstep.2

theorem validUtf8Aux_ascii (b : Nat) (t : List Nat) (hb : b ≤ 127) :
    validUtf8Aux 0 0 0 (b :: t) = validUtf8Aux 0 0 0 t := by
  simp only [validUtf8Aux]
  simp [hb]

theorem validUtf8_replicate97 (n : Nat) (t : List Nat) :
    validUtf8 (List.replicate n 97 ++ t) = validUtf8 t := by
  simp only [validUtf8]
  induction n with
  | zero => simp
  | succ k ih =>
    rw [List.replicate_succ, List.cons_append, validUtf8Aux_ascii _ _ (by norm_num), ih]

theorem validUtf8_frag0 : validUtf8 frag0 = true := by
  rw [frag0, validUtf8_replicate97]
  decide

theorem frag0_length : frag0.length = 4002 := by
  simp only [frag0, List.length_append, List.length_replicate, List.length_cons,
    List.length_nil]

theorem frag0_ne_nil : frag0 ≠ [] := by
  intro h
  have h2 := frag0_length
  rw [h] at h2
  simp at h2

theorem frag0_take_4000 : List.take 4000 frag0 = List.replicate 3999 97 ++ [228] := by
  rw [frag0, List.take_append_eq_append_take]
  norm_num [List.take_replicate]

theorem frag0_drop_4000 : List.drop 4000 frag0 = [184, 150] := by
  rw [frag0, List.drop_append_eq_append_drop]
  have hd : List.drop 4000 (List.replicate 3999 97) = [] := by
    apply List.drop_eq_nil_of_le
    rw [List.length_replicate]
    norm_num
  rw [hd]
  norm_num

theorem frag0_take_3999 : List.take 3999 frag0 = List.replicate 3999 97 := by
  rw [frag0, List.take_append_eq_append_take]
  norm_num [List.take_replicate]

theorem frag0_drop_3999 : List.drop 3999 frag0 = [228, 184, 150] := by
  rw [frag0, List.drop_append_eq_append_drop]
  have hd : List.drop 3999 (List.replicate 3999 97) = [] := by
    apply List.drop_eq_nil_of_le
    rw [List.length_replicate]
  rw [hd]
  norm_num

theorem validUtf8_frag0_head : validUtf8 (List.replicate 3999 97 ++ [228]) = false := by
  rw [validUtf8_replicate97]
  decide

theorem validUtf8_frag0_tail : validUtf8 [184, 150] = false := by decide

theorem byteChunks_rest : byteChunks 4000 [184, 150] = [[184, 150]] := by
  rw [byteChunks.eq_def]
  rw [dif_neg (by norm_num : ¬(4000 : Nat) = 0)]
  rw [dif_neg (by simp : ¬([184, 150] : List Nat) = [])]
  rw [(by decide : List.take 4000 [184, 150] = [184, 150])]
  rw [(by decide : List.drop 4000 [184, 150] = ([] : List Nat))]
  rw [byteChunks.eq_def]
  simp

theorem byteChunks_frag0 :
    byteChunks 4000 frag0 = [List.replicate 3999 97 ++ [228], [184, 150]] := by
  rw [byteChunks.eq_def]
  rw [dif_neg (by norm_num : ¬(4000 : Nat) = 0), dif_neg frag0_ne_nil]
  rw [frag0_take_4000, frag0_drop_4000, byteChunks_rest]

theorem sendLoop_frag0 :
    List.foldl (sendStep MAX_CHUNK_SIZE) ([], []) [frag0] = ([], []) := by
  rw [List.foldl_cons, List.foldl_nil]
  unfold sendStep MAX_CHUNK_SIZE
  rw [if_pos (by rw [frag0_length]; norm_num : (4000 : Nat) < frag0.length)]
  rw [byteChunks_frag0]
  rw [List.filter_cons_of_neg (by rw [validUtf8_frag0_head]; decide)]
  rw [List.filter_cons_of_neg (by rw [validUtf8_frag0_tail]; decide)]
  rfl

theorem send_transcript_frag0 : send_transcript MAX_CHUNK_SIZE [frag0] = [] := by
  rw [send_transcript, sendLoop_frag0]
  rfl

theorem frag1_ne_nil : frag1 ≠ [] := by
  intro h
  have h2 : frag1.length = 4000 := by rw [frag1, List.length_replicate]
  rw [h] at h2
  simp at h2

theorem validUtf8_frag1 : validUtf8 frag1 = true := by
  have h : frag1 = List.replicate 4000 97 ++ [] := by rw [frag1, List.append_nil]
  rw [h, validUtf8_replicate97]
  decide

theorem frag1_length : frag1.length = 4000 := by
  rw [frag1, List.length_replicate]

theorem sendLoop_frag1 :
    List.foldl (sendStep MAX_CHUNK_SIZE) ([], []) [frag1] = ([[]], frag1) := by
  rw [List.foldl_cons, List.foldl_nil]
  unfold sendStep MAX_CHUNK_SIZE
  rw [if_neg (by rw [frag1_length]; norm_num : ¬(4000 : Nat) < frag1.length)]
  rw [if_pos (by rw [frag1_length]; norm_num :
    (4000 : Nat) < (([], []) : SendState).2.length + frag1.length + 1)]
  rfl

theorem send_transcript_frag1 :
    send_transcript MAX_CHUNK_SIZE [frag1] = [[], frag1] := by
  rw [send_transcript, sendLoop_frag1]
  rw [if_neg frag1_ne_nil]
  rfl

theorem frag0_getElem_4000 : frag0[4000]? = some 184 := by
  rw [frag0]
  rw [List.getElem?_append_right (by rw [List.length_replicate]; norm_num)]
  rw [List.length_replicate]
  norm_num

theorem frag0_getElem_3999 : frag0[3999]? = some 228 := by
  rw [frag0]
  rw [List.getElem?_append_right (by rw [List.length_replicate])]
  rw [List.length_replicate]
  decide

theorem isCharBoundary_frag0_4000 : isCharBoundary frag0 4000 = false := by
  unfold isCharBoundary
  rw [if_neg (by norm_num : ¬(4000 : Nat) = 0)]
  rw [frag0_getElem_4000]
  decide

theorem isCharBoundary_frag0_3999 : isCharBoundary frag0 3999 = true := by
  unfold isCharBoundary
  rw [if_neg (by norm_num : ¬(3999 : Nat) = 0)]
  rw [frag0_getElem_3999]
  decide

theorem findBoundaryBack_succ (s : List Nat) (e : Nat) :
    findBoundaryBack s (e + 1) =
      if isCharBoundary s (e + 1) then e + 1 else findBoundaryBack s e := rfl

theorem fb_frag0 : findBoundaryBack frag0 4000 = 3999 := by
  rw [show (4000 : Nat) = 3999 + 1 from by norm_num, findBoundaryBack_succ]
  rw [show (3999 : Nat) + 1 = 4000 from by norm_num, isCharBoundary_frag0_4000]
  rw [if_neg (by decide : ¬(false = true))]
  rw [show (3999 : Nat) = 3998 + 1 from by norm_num, findBoundaryBack_succ]
  rw [show (3998 : Nat) + 1 = 3999 from by norm_num, isCharBoundary_frag0_3999]
  rw [if_pos rfl]

theorem splitLoop_frag0_3999 :
    splitLoop frag0 4000 3999 = Except.ok [[228, 184, 150]] := by
  rw [splitLoop.eq_def]
  rw [if_pos (by rw [frag0_length]; norm_num : 3999 < frag0.length)]
  rw [if_pos (by rw [frag0_length]; norm_num : frag0.length - 3999 ≤ 4000)]
  rw [frag0_drop_3999]

theorem split_frag0 :
    split_safe_utf8 frag0 MAX_CHUNK_SIZE =
      Except.ok [List.replicate 3999 97, [228, 184, 150]] := by
  rw [split_safe_utf8, MAX_CHUNK_SIZE]
  rw [if_neg (by norm_num : ¬(4000 : Nat) = 0)]
  rw [splitLoop.eq_def]
  rw [if_pos (by rw [frag0_length]; norm_num : 0 < frag0.length)]
  rw [if_neg (by rw [frag0_length]; norm_num : ¬(frag0.length - 0 ≤ 4000))]
  simp only [Nat.zero_add, fb_frag0, splitLoop_frag0_3999, List.drop_zero, Nat.sub_zero,
    frag0_take_3999]
  rw [if_neg (by norm_num : ¬(3999 : Nat) ≤ 0)]

theorem find?_of_firstSuchThat {α : Type} (p : α → Bool) (l : List α) (x : α)
    (h : firstSuchThat p l x) : l.find? p = some x := by
  rcases h with ⟨l1, l2, rfl, hpx, hall⟩
  induction l1 with
  | nil => exact List.find?_cons_of_pos _ hpx
  | cons a l1 ih =>
    have ha : p a = false := hall a (by simp)
    rw [List.cons_append, List.find?_cons_of_neg _ (by simp [ha])]
    exact ih (fun y hy => hall y (by simp [hy]))

/-! ### Valid UTF-8 is preserved by slicing at char boundaries -/

theorem validUtf8Aux_zero_irrel (lo hi : Nat) (t : List Nat) :
    validUtf8Aux 0 lo hi t = validUtf8 t := by
  cases t <;> simp [validUtf8, validUtf8Aux]

theorem validUtf8Aux_one (lo hi : Nat) (t : List Nat) (h : validUtf8Aux 1 lo hi t = true) :
    ∃ c1 t1, t = c1 :: t1 ∧ lo ≤ c1 ∧ c1 ≤ hi ∧ validUtf8 t1 = true := by
  cases t with
  | nil => simp [validUtf8Aux] at h
  | cons c1 t1 =>
    simp only [validUtf8Aux] at h
    norm_num at h
    rcases h with ⟨hc, h⟩
    rw [validUtf8Aux_zero_irrel] at h
    exact ⟨c1, t1, rfl, hc.1, hc.2, h⟩

theorem validUtf8Aux_two (lo hi : Nat) (t : List Nat) (h : validUtf8Aux 2 lo hi t = true) :
    ∃ c1 c2 t2, t = c1 :: c2 :: t2 ∧ lo ≤ c1 ∧ c1 ≤ hi ∧
      128 ≤ c2 ∧ c2 ≤ 191 ∧ validUtf8 t2 = true := by
  cases t with
  | nil => simp [validUtf8Aux] at h
  | cons c1 t1 =>
    simp only [validUtf8Aux] at h
    norm_num at h
    rcases h with ⟨hc, h⟩
    rcases validUtf8Aux_one _ _ _ h with ⟨c2, t2, rfl, h1, h2, h3⟩
    exact ⟨c1, c2, t2, rfl, hc.1, hc.2, h1, h2, h3⟩

theorem validUtf8Aux_three (lo hi : Nat) (t : List Nat) (h : validUtf8Aux 3 lo hi t = true) :
    ∃ c1 c2 c3 t3, t = c1 :: c2 :: c3 :: t3 ∧ lo ≤ c1 ∧ c1 ≤ hi ∧
      128 ≤ c2 ∧ c2 ≤ 191 ∧ 128 ≤ c3 ∧ c3 ≤ 191 ∧ validUtf8 t3 = true := by
  cases t with
  | nil => simp [validUtf8Aux] at h
  | cons c1 t1 =>
    simp only [validUtf8Aux] at h
    norm_num at h
    rcases h with ⟨hc, h⟩
    rcases validUtf8Aux_two _ _ _ h with ⟨c2, c3, t3, rfl, h1, h2, h3, h4, h5⟩
    exact ⟨c1, c2, c3, t3, rfl, hc.1, hc.2, h1, h2, h3, h4, h5⟩

/-! #### Sanity checks of the UTF-8 validator against standard vectors -/

theorem validUtf8_ascii_pair : validUtf8 [104, 105] = true := by decide

theorem validUtf8_u4e16 : validUtf8 [228, 184, 150] = true := by decide

theorem validUtf8_truncated : validUtf8 [228, 184] = false := by decide

theorem validUtf8_bare_cont : validUtf8 [184, 150] = false := by decide

theorem validUtf8_overlong2 : validUtf8 [192, 128] = false := by decide

theorem validUtf8_surrogate : validUtf8 [237, 160, 128] = false := by decide

theorem validUtf8_below_surrogates : validUtf8 [237, 159, 191] = true := by decide

theorem validUtf8_u0800 : validUtf8 [224, 160, 128] = true := by decide

theorem validUtf8_overlong3 : validUtf8 [224, 128, 128] = false := by decide

theorem validUtf8_u10000 : validUtf8 [240, 144, 128, 128] = true := by decide

theorem validUtf8_overlong4 : validUtf8 [240, 128, 128, 128] = false := by decide

theorem validUtf8_u10ffff : validUtf8 [244, 143, 191, 191] = true := by decide

theorem validUtf8_above_max : validUtf8 [244, 144, 128, 128] = false := by decide

theorem validUtf8_bad_lead : validUtf8 [245, 128, 128, 128] = false := by decide

/-! #### Rewrite rules for each lead-byte class of the automaton -/

theorem validAux_lead_ascii (lo hi b : Nat) (t : List Nat) (h1 : b ≤ 127) :
    validUtf8Aux 0 lo hi (b :: t) = validUtf8 t := by
  simp only [validUtf8Aux]
  rw [if_true, if_pos h1, validUtf8Aux_zero_irrel]

theorem validAux_lead_bad1 (lo hi b : Nat) (t : List Nat) (h1 : ¬b ≤ 127) (h2 : b ≤ 193) :
    validUtf8Aux 0 lo hi (b :: t) = false := by
  simp only [validUtf8Aux]
  rw [if_true, if_neg h1, if_pos h2]

theorem validAux_lead2 (lo hi b : Nat) (t : List Nat) (h1 : ¬b ≤ 193) (h2 : b ≤ 223) :
    validUtf8Aux 0 lo hi (b :: t) = validUtf8Aux 1 128 191 t := by
  simp only [validUtf8Aux]
  rw [if_true, if_neg (by omega : ¬b ≤ 127), if_neg h1, if_pos h2]

theorem validAux_lead_E0 (lo hi : Nat) (t : List Nat) :
    validUtf8Aux 0 lo hi (224 :: t) = validUtf8Aux 2 160 191 t := by
  simp only [validUtf8Aux]
  norm_num

theorem validAux_lead_ED (lo hi : Nat) (t : List Nat) :
    validUtf8Aux 0 lo hi (237 :: t) = validUtf8Aux 2 128 159 t := by
  simp only [validUtf8Aux]
  norm_num

theorem validAux_lead3 (lo hi b : Nat) (t : List Nat) (h1 : ¬b ≤ 223) (h2 : ¬b = 224)
    (h3 : ¬b = 237) (h4 : b ≤ 239) :
    validUtf8Aux 0 lo hi (b :: t) = validUtf8Aux 2 128 191 t := by
  simp only [validUtf8Aux]
  rw [if_true, if_neg (by omega : ¬b ≤ 127), if_neg (by omega : ¬b ≤ 193),
    if_neg h1, if_neg h2, if_neg h3, if_pos h4]

theorem validAux_lead_F0 (lo hi : Nat) (t : List Nat) :
    validUtf8Aux 0 lo hi (240 :: t) = validUtf8Aux 3 144 191 t := by
  simp only [validUtf8Aux]
  norm_num

theorem validAux_lead_F4 (lo hi : Nat) (t : List Nat) :
    validUtf8Aux 0 lo hi (244 :: t) = validUtf8Aux 3 128 143 t := by
  simp only [validUtf8Aux]
  norm_num

theorem validAux_lead4 (lo hi b : Nat) (t : List Nat) (h1 : ¬b ≤ 239) (h2 : ¬b = 240)
    (h3 : ¬b = 244) (h4 : b ≤ 244) :
    validUtf8Aux 0 lo hi (b :: t) = validUtf8Aux 3 128 191 t := by
  simp only [validUtf8Aux]
  rw [if_true, if_neg (by omega : ¬b ≤ 127), if_neg (by omega : ¬b ≤ 193),
    if_neg (by omega : ¬b ≤ 223), if_neg (by omega : ¬b = 224),
    if_neg (by omega : ¬b = 237), if_neg (by omega : ¬b ≤ 239), if_neg h2, if_neg h3,
    if_pos h4]

theorem validAux_lead_bad2 (lo hi b : Nat) (t : List Nat) (h1 : ¬b ≤ 244) :
    validUtf8Aux 0 lo hi (b :: t) = false := by
  simp only [validUtf8Aux]
  rw [if_true, if_neg (by omega : ¬b ≤ 127), if_neg (by omega : ¬b ≤ 193),
    if_neg (by omega : ¬b ≤ 223), if_neg (by omega : ¬b = 224),
    if_neg (by omega : ¬b = 237), if_neg (by omega : ¬b ≤ 239),
    if_neg (by omega : ¬b = 240), if_neg (by omega : ¬b = 244), if_neg h1]

theorem validAux_cons1 (lo hi c1 : Nat) (t : List Nat) (hc : lo ≤ c1 ∧ c1 ≤ hi) :
    validUtf8Aux 1 lo hi (c1 :: t) = validUtf8 t := by
  simp only [validUtf8Aux]
  rw [if_neg (by norm_num : ¬(1 : Nat) = 0), if_pos hc]
  norm_num [validUtf8Aux_zero_irrel]

theorem validAux_cons2 (lo hi c1 : Nat) (t : List Nat) (hc : lo ≤ c1 ∧ c1 ≤ hi) :
    validUtf8Aux 2 lo hi (c1 :: t) = validUtf8Aux 1 128 191 t := by
  simp only [validUtf8Aux]
  rw [if_neg (by norm_num : ¬(2 : Nat) = 0), if_pos hc]

theorem validAux_cons3 (lo hi c1 : Nat) (t : List Nat) (hc : lo ≤ c1 ∧ c1 ≤ hi) :
    validUtf8Aux 3 lo hi (c1 :: t) = validUtf8Aux 2 128 191 t := by
  simp only [validUtf8Aux]
  rw [if_neg (by norm_num : ¬(3 : Nat) = 0), if_pos hc]

/-- Inversion of the UTF-8 automaton: a non-empty valid string starts with
one full character `cs` (1–4 bytes, all bytes after the first being
continuation bytes) followed by a valid remainder, and prepending `cs` to
any valid string again yields a valid string. -/
theorem validUtf8_decomp (b : Nat) (t : List Nat) (h : validUtf8 (b :: t) = true) :
    ∃ cs u, b :: t = cs ++ u ∧ validUtf8 u = true ∧ 1 ≤ cs.length ∧
      (∀ k y, 1 ≤ k → k < cs.length → cs[k]? = some y → 128 ≤ y ∧ y ≤ 191) ∧
      (∀ v, validUtf8 v = true → validUtf8 (cs ++ v) = true) := by
  rw [validUtf8] at h
  by_cases h1 : b ≤ 127
  · rw [validAux_lead_ascii _ _ _ _ h1] at h
    refine ⟨[b], t, rfl, h, by norm_num, ?_, ?_⟩
    · intro k y hk1 hk2 hget
      simp at hk2
      omega
    · intro v hv
      simp only [List.cons_append, List.nil_append, validUtf8]
      rw [validAux_lead_ascii _ _ _ _ h1]
      exact hv
  · by_cases h2 : b ≤ 193
    · rw [validAux_lead_bad1 _ _ _ _ h1 h2] at h
      simp at h
    · by_cases h3 : b ≤ 223
      · rw [validAux_lead2 _ _ _ _ h2 h3] at h
        rcases validUtf8Aux_one _ _ _ h with ⟨c1, t1, rfl, hlo, hhi, hval⟩
        refine ⟨[b, c1], t1, rfl, hval, by norm_num, ?_, ?_⟩
        · intro k y hk1 hk2 hget
          simp at hk2
          have hk : k = 1 := by omega
          subst hk
          simp at hget
          omega
        · intro v hv
          simp only [List.cons_append, List.nil_append, validUtf8]
          rw [validAux_lead2 _ _ _ _ h2 h3, validAux_cons1 _ _ _ _ ⟨hlo, hhi⟩]
          exact hv
      · by_cases h4 : b = 224
        · subst h4
          rw [validAux_lead_E0] at h
          rcases validUtf8Aux_two _ _ _ h with ⟨c1, c2, t2, rfl, hlo, hhi, hlo2, hhi2, hval⟩
          refine ⟨[224, c1, c2], t2, rfl, hval, by norm_num, ?_, ?_⟩
          · intro k y hk1 hk2 hget
            simp at hk2
            have hk : k = 1 ∨ k = 2 := by omega
            rcases hk with hk | hk <;> subst hk <;> simp at hget <;> omega
          · intro v hv
            simp only [List.cons_append, List.nil_append, validUtf8]
            rw [validAux_lead_E0, validAux_cons2 _ _ _ _ ⟨hlo, hhi⟩,
              validAux_cons1 _ _ _ _ ⟨hlo2, hhi2⟩]
            exact hv
        · by_cases h5 : b = 237
          · subst h5
            rw [validAux_lead_ED] at h
            rcases validUtf8Aux_two _ _ _ h with ⟨c1, c2, t2, rfl, hlo, hhi, hlo2, hhi2, hval⟩
            refine ⟨[237, c1, c2], t2, rfl, hval, by norm_num, ?_, ?_⟩
            · intro k y hk1 hk2 hget
              simp at hk2
              have hk : k = 1 ∨ k = 2 := by omega
              rcases hk with hk | hk <;> subst hk <;> simp at hget <;> omega
            · intro v hv
              simp only [List.cons_append, List.nil_append, validUtf8]
              rw [validAux_lead_ED, validAux_cons2 _ _ _ _ ⟨hlo, hhi⟩,
                validAux_cons1 _ _ _ _ ⟨hlo2, hhi2⟩]
              exact hv
          · by_cases h6 : b ≤ 239
            · rw [validAux_lead3 _ _ _ _ h3 h4 h5 h6] at h
              rcases validUtf8Aux_two _ _ _ h with ⟨c1, c2, t2, rfl, hlo, hhi, hlo2, hhi2, hval⟩
              refine ⟨[b, c1, c2], t2, rfl, hval, by norm_num, ?_, ?_⟩
              · intro k y hk1 hk2 hget
                simp at hk2
                have hk : k = 1 ∨ k = 2 := by omega
                rcases hk with hk | hk <;> subst hk <;> simp at hget <;> omega
              · intro v hv
                simp only [List.cons_append, List.nil_append, validUtf8]
                rw [validAux_lead3 _ _ _ _ h3 h4 h5 h6, validAux_cons2 _ _ _ _ ⟨hlo, hhi⟩,
                  validAux_cons1 _ _ _ _ ⟨hlo2, hhi2⟩]
                exact hv
            · by_cases h7 : b = 240
              · subst h7
                rw [validAux_lead_F0] at h
                rcases validUtf8Aux_three _ _ _ h with
                  ⟨c1, c2, c3, t3, rfl, hlo, hhi, hlo2, hhi2, hlo3, hhi3, hval⟩
                refine ⟨[240, c1, c2, c3], t3, rfl, hval, by norm_num, ?_, ?_⟩
                · intro k y hk1 hk2 hget
                  simp at hk2
                  have hk : k = 1 ∨ k = 2 ∨ k = 3 := by omega
                  rcases hk with hk | hk | hk <;> subst hk <;> simp at hget <;> omega
                · intro v hv
                  simp only [List.cons_append, List.nil_append, validUtf8]
                  rw [validAux_lead_F0, validAux_cons3 _ _ _ _ ⟨hlo, hhi⟩,
                    validAux_cons2 _ _ _ _ ⟨hlo2, hhi2⟩, validAux_cons1 _ _ _ _ ⟨hlo3, hhi3⟩]
                  exact hv
              · by_cases h8 : b = 244
                · subst h8
                  rw [validAux_lead_F4] at h
                  rcases validUtf8Aux_three _ _ _ h with
                    ⟨c1, c2, c3, t3, rfl, hlo, hhi, hlo2, hhi2, hlo3, hhi3, hval⟩
                  refine ⟨[244, c1, c2, c3], t3, rfl, hval, by norm_num, ?_, ?_⟩
                  · intro k y hk1 hk2 hget
                    simp at hk2
                    have hk : k = 1 ∨ k = 2 ∨ k = 3 := by omega
                    rcases hk with hk | hk | hk <;> subst hk <;> simp at hget <;> omega
                  · intro v hv
                    simp only [List.cons_append, List.nil_append, validUtf8]
                    rw [validAux_lead_F4, validAux_cons3 _ _ _ _ ⟨hlo, hhi⟩,
                      validAux_cons2 _ _ _ _ ⟨hlo2, hhi2⟩, validAux_cons1 _ _ _ _ ⟨hlo3, hhi3⟩]
                    exact hv
                · by_cases h9 : b ≤ 244
                  · rw [validAux_lead4 _ _ _ _ h6 h7 h8 h9] at h
                    rcases validUtf8Aux_three _ _ _ h with
                      ⟨c1, c2, c3, t3, rfl, hlo, hhi, hlo2, hhi2, hlo3, hhi3, hval⟩
                    refine ⟨[b, c1, c2, c3], t3, rfl, hval, by norm_num, ?_, ?_⟩
                    · intro k y hk1 hk2 hget
                      simp at hk2
                      have hk : k = 1 ∨ k = 2 ∨ k = 3 := by omega
                      rcases hk with hk | hk | hk <;> subst hk <;> simp at hget <;> omega
                    · intro v hv
                      simp only [List.cons_append, List.nil_append, validUtf8]
                      rw [validAux_lead4 _ _ _ _ h6 h7 h8 h9,
                        validAux_cons3 _ _ _ _ ⟨hlo, hhi⟩,
                        validAux_cons2 _ _ _ _ ⟨hlo2, hhi2⟩,
                        validAux_cons1 _ _ _ _ ⟨hlo3, hhi3⟩]
                      exact hv
                  · rw [validAux_lead_bad2 _ _ _ _ h9] at h
                    simp at h

theorem isCharBoundary_append_right (cs u : List Nat) (i : Nat) (hci : cs.length ≤ i)
    (hbd : isCharBoundary (cs ++ u) i = true) : isCharBoundary u (i - cs.length) = true := by
  by_cases h0 : i - cs.length = 0
  · rw [h0]
    exact isCharBoundary_zero u
  · have hi0 : ¬ i = 0 := by omega
    rw [isCharBoundary, if_neg hi0, List.getElem?_append_right hci] at hbd
    rw [isCharBoundary, if_neg h0]
    cases hget : u[i - cs.length]? with
    | some y =>
      rw [hget] at hbd
      exact hbd
    | none =>
      rw [hget] at hbd
      simp only [List.length_append, decide_eq_true_eq] at hbd ⊢
      omega

theorem isCharBoundary_drop (s : List Nat) (i j : Nat) (hij : i ≤ j)
    (hbd : isCharBoundary s j = true) : isCharBoundary (s.drop i) (j - i) = true := by
  by_cases h0 : j - i = 0
  · rw [h0]
    exact isCharBoundary_zero _
  · have hj0 : ¬ j = 0 := by omega
    rw [isCharBoundary, if_neg hj0] at hbd
    rw [isCharBoundary, if_neg h0]
    have hidx : (s.drop i)[j - i]? = s[j]? := by
      rw [List.getElem?_drop]
      congr 1
      omega
    rw [hidx]
    cases hget : s[j]? with
    | some y =>
      rw [hget] at hbd
      exact hbd
    | none =>
      rw [hget] at hbd
      simp only [List.length_drop, decide_eq_true_eq] at hbd ⊢
      omega

theorem validUtf8_take_drop :
    ∀ n s, List.length s ≤ n → validUtf8 s = true → ∀ i, isCharBoundary s i = true →
      validUtf8 (s.take i) = true ∧ validUtf8 (s.drop i) = true := by
  intro n
  induction n with
  | zero =>
    intro s hlen hval i hbd
    have hs : s = [] := List.eq_nil_of_length_eq_zero (by omega)
    subst hs
    simp [List.take_nil, List.drop_nil]
    decide
  | succ n ih =>
    intro s hlen hval i hbd
    cases s with
    | nil =>
      simp [List.take_nil, List.drop_nil]
      decide
    | cons b t =>
      by_cases hi0 : i = 0
      · subst hi0
        exact ⟨by rw [List.take_zero]; decide, by rw [List.drop_zero]; exact hval⟩
      · rcases validUtf8_decomp b t hval with ⟨cs, u, hdecomp, hu, hclen, hcont, hprep⟩
        by_cases hic : i < cs.length
        · exfalso
          have hget : (b :: t)[i]? = cs[i]? := by
            rw [hdecomp]
            exact List.getElem?_append_left hic
          rcases hcont i cs[i] (by omega) hic (List.getElem?_eq_getElem hic)
            with ⟨hy1, hy2⟩
          rw [isCharBoundary, if_neg hi0, hget, List.getElem?_eq_getElem hic] at hbd
          simp only [decide_eq_true_eq] at hbd
          rcases hbd with hbd | hbd <;> omega
        · push_neg at hic
          have hulen : u.length ≤ n := by
            have hl := congrArg List.length hdecomp
            simp only [List.length_cons, List.length_append] at hl
            simp only [List.length_cons] at hlen
            omega
          have hbu : isCharBoundary u (i - cs.length) = true := by
            rw [hdecomp] at hbd
            exact isCharBoundary_append_right cs u i hic hbd
          rcases ih u hulen hu (i - cs.length) hbu with ⟨hta, hdr⟩
          constructor
          · have heq : (b :: t).take i = cs ++ u.take (i - cs.length) := by
              rw [hdecomp, List.take_append_eq_append_take, List.take_of_length_le hic]
            rw [heq]
            exact hprep _ hta
          · have heq : (b :: t).drop i = u.drop (i - cs.length) := by
              rw [hdecomp, List.drop_append_eq_append_drop,
                List.drop_eq_nil_of_le hic, List.nil_append]
            rw [heq]
            exact hdr

/-- Slices of a valid UTF-8 string whose endpoints are char boundaries are
valid UTF-8: the model-level counterpart of the fact that a Rust `&str`
slice at `is_char_boundary` positions is again a valid `&str`. -/
theorem validUtf8_slice (s : List Nat) (i j : Nat) (hval : validUtf8 s = true)
    (hbi : isCharBoundary s i = true) (hbj : isCharBoundary s j = true) (hij : i ≤ j) :
    validUtf8 ((s.drop i).take (j - i)) = true := by
  have hdrop := (validUtf8_take_drop s.length s (Nat.le_refl _) hval i hbi).2
  have hbd := isCharBoundary_drop s i j hij hbj
  exact (validUtf8_take_drop (s.drop i).length (s.drop i) (Nat.le_refl _) hdrop
    (j - i) hbd).1

/-! ## The claims -/

/-- Claim C1 (refuted, code bug): the claim states that for every fragment
sequence and budget the concatenation of the emitted messages, separators
removed, reproduces the concatenation of the inputs.  The code violates it:
on the single valid UTF-8 fragment `frag0` (3999 bytes of `a` followed by
the three-byte character U+4E16) with the code's budget `MAX_CHUNK_SIZE`,
the raw 4000-byte cut splits the multi-byte character, both raw chunks fail
UTF-8 validation, and `send_transcript` silently drops them: nothing at all
is emitted, so the fragment content is lost. -/

theorem claim_C1 :
    send_transcript MAX_CHUNK_SIZE [frag0] = [] ∧ validUtf8 frag0 = true ∧ frag0 ≠ [] :=
  ⟨send_transcript_frag0, validUtf8_frag0, frag0_ne_nil⟩

/-- Claim C2 (refuted, code bug): the claim states that an oversized
fragment is emitted as exactly the chunks of the Safe Splitter
(`split_safe_utf8`).  On `frag0`, `split_safe_utf8` produces the two
boundary-safe chunks, while `send_transcript` cuts at raw byte offsets and
silently drops both invalid raw chunks, emitting nothing. -/

theorem claim_C2 :
    split_safe_utf8 frag0 MAX_CHUNK_SIZE =
        Except.ok [List.replicate 3999 97, [228, 184, 150]] ∧
      send_transcript MAX_CHUNK_SIZE [frag0] = [] :=
  ⟨split_frag0, send_transcript_frag0⟩

/-- Claim C3 (refuted, code bug): the claim states that the accumulator
never passes the empty string to the sender.  On a single fragment of
exactly `MAX_CHUNK_SIZE` bytes (`frag1`), the would-exceed flush of
`send_transcript` (which, unlike the other two flush sites, has no
non-emptiness guard) sends the empty buffer: the first emitted message is
the empty string. -/

theorem claim_C3 :
    send_transcript MAX_CHUNK_SIZE [frag1] = [[], frag1] ∧
      validUtf8 frag1 = true ∧ frag1 ≠ [] :=
  ⟨send_transcript_frag1, validUtf8_frag1, frag1_ne_nil⟩

/-- Claim C4: for every fragment sequence and positive budget `b`, every
message emitted by the accumulation loop of `send_transcript` has byte
length at most `b`. -/

theorem claim_C4 (b : Nat) (transcript : List (List Nat)) (hb : 0 < b) :
    ∀ m ∈ send_transcript b transcript, m.length ≤ b := by
  intro m hm
  simp only [send_transcript] at hm
  have h := sendLoop_bound b transcript ([], []) (by simp) (by simp)
  by_cases hc : (transcript.foldl (sendStep b) ([], [])).2 = []
  · rw [if_pos hc] at hm
    exact h.1 m hm
  · rw [if_neg hc] at hm
    rcases List.mem_append.mp hm with hm | hm
    · exact h.1 m hm
    · simp only [List.mem_singleton] at hm
      subst hm
      exact h.2

theorem claim_C4_witness :
    [97, 98] ∈ send_transcript 4 [[97, 98]] ∧ ([97, 98] : List Nat).length ≤ 4 :=
  ⟨by decide, claim_C4 4 [[97, 98]] (by decide) [97, 98] (by decide)⟩

/-- Claim C5: whenever `split_safe_utf8 s b` succeeds with budget `b > 0`,
the returned chunks concatenate, in order, to exactly `s`. -/

theorem claim_C5 (s : List Nat) (b : Nat) (chunks : List (List Nat)) (hb : 0 < b)
    (h : split_safe_utf8 s b = Except.ok chunks) : chunks.flatten = s := by
  rw [split_safe_utf8, if_neg (by omega : ¬b = 0)] at h
  simpa using splitLoop_flatten s b 0 chunks h

theorem splitLoop_hi_1 : splitLoop [104, 105] 1 1 = Except.ok [[105]] := by
  rw [splitLoop.eq_def]
  norm_num

theorem split_hi : split_safe_utf8 [104, 105] 1 = Except.ok [[104], [105]] := by
  rw [split_safe_utf8]
  norm_num
  rw [splitLoop.eq_def]
  norm_num [(by decide : findBoundaryBack [104, 105] (0 + 1) = 1), splitLoop_hi_1]

theorem claim_C5_witness :
    0 < 1 ∧ split_safe_utf8 [104, 105] 1 = Except.ok [[104], [105]] ∧
      ([[104], [105]] : List (List Nat)).flatten = [104, 105] :=
  ⟨by decide, split_hi, claim_C5 [104, 105] 1 [[104], [105]] (by decide) split_hi⟩

/-- Claim C6: every chunk returned by a successful `split_safe_utf8 s b` has
byte length between 1 and `b`, is a valid UTF-8 string whenever the input
is, and is the slice of `s` between two char boundaries of `s` — never a
raw byte-offset slice. -/

theorem claim_C6 (s : List Nat) (b : Nat) (chunks : List (List Nat))
    (h : split_safe_utf8 s b = Except.ok chunks) :
    ∀ c ∈ chunks, 1 ≤ c.length ∧ c.length ≤ b ∧
      (validUtf8 s = true → validUtf8 c = true) ∧
      ∃ i j, i < j ∧ j ≤ s.length ∧ isCharBoundary s i = true ∧
        isCharBoundary s j = true ∧ c = (s.drop i).take (j - i) := by
  by_cases hb : b = 0
  · rw [split_safe_utf8, if_pos hb] at h
    simp at h
  · rw [split_safe_utf8, if_neg hb] at h
    intro c hc
    rcases splitLoop_chunks s b 0 chunks (isCharBoundary_zero s) h c hc with
      ⟨h1, h2, i, j, hij, hjlen, hbi, hbj, hceq⟩
    refine ⟨h1, h2, ?_, i, j, hij, hjlen, hbi, hbj, hceq⟩
    intro hval
    rw [hceq]
    exact validUtf8_slice s i j hval hbi hbj (Nat.le_of_lt hij)

theorem claim_C6_witness :
    split_safe_utf8 [104, 105] 1 = Except.ok [[104], [105]] ∧
      (1 ≤ ([104] : List Nat).length ∧ ([104] : List Nat).length ≤ 1 ∧
        (validUtf8 [104, 105] = true → validUtf8 [104] = true) ∧
        ∃ i j, i < j ∧ j ≤ ([104, 105] : List Nat).length ∧
          isCharBoundary [104, 105] i = true ∧ isCharBoundary [104, 105] j = true ∧
          [104] = (([104, 105] : List Nat).drop i).take (j - i)) :=
  ⟨split_hi, claim_C6 [104, 105] 1 [[104], [105]] split_hi [104] (by decide)⟩

/-- Claim C7: `split_safe_utf8 s b` fails with `invalidBudget` exactly when
`b = 0`, and for `b > 0` it fails with `budgetTooSmall` exactly when some
single character of `s` is wider than `b` bytes (otherwise it succeeds). -/

theorem claim_C7 (s : List Nat) (b : Nat) :
    (split_safe_utf8 s b = Except.error SplitError.invalidBudget ↔ b = 0) ∧
    (0 < b →
      (split_safe_utf8 s b = Except.error SplitError.budgetTooSmall ↔
        hasOversizedChar s b = true)) := by
  constructor
  · constructor
    · intro h
      by_contra hb
      rw [split_safe_utf8, if_neg hb] at h
      exact splitLoop_ne_invalidBudget s b 0 h
    · intro hb
      subst hb
      rw [split_safe_utf8, if_pos rfl]
  · intro hb
    rw [split_safe_utf8, if_neg (by omega : ¬b = 0)]
    constructor
    · intro h
      rcases splitLoop_err_big_char s b 0 (isCharBoundary_zero s) h with
        ⟨i, h0i, hi, hbd, hall⟩
      exact (hasOversizedChar_iff s b).mpr ⟨i, hi, hbd, hall⟩
    · intro h
      rcases (hasOversizedChar_iff s b).mp h with ⟨i, hi, hbd, hall⟩
      cases hok : splitLoop s b 0 with
      | ok l =>
        rcases splitLoop_ok_no_big_char s b 0 l (isCharBoundary_zero s) hok i
          (Nat.zero_le i) hi hbd with ⟨j, h1, h2, h3⟩
        rw [hall j h1 h2] at h3
        simp at h3
      | error err =>
        cases err with
        | invalidBudget => exact absurd hok (splitLoop_ne_invalidBudget s b 0)
        | budgetTooSmall => rfl

theorem claim_C7_witness :
    split_safe_utf8 [228, 184, 150] 2 = Except.error SplitError.budgetTooSmall :=
  ((claim_C7 [228, 184, 150] 2).2 (by decide)).mpr (by decide)

/-- Claim C8: `select_fallback_language` returns the first preferred code
present in the available list; failing that, the first available code whose
value starts with "zh"; failing that, the first available code; and "en"
when the available list is empty.  (Totality is inherent: it is a total
Lean function.) -/

theorem claim_C8 (available preferred : List String) :
    (∀ x, firstSuchThat (fun lang => available.contains lang) preferred x →
       select_fallback_language available preferred = x) ∧
    ((∀ p1 ∈ preferred, available.contains p1 = false) →
      (∀ x, firstSuchThat (fun l => strStartsWith l "zh") available x →
         select_fallback_language available preferred = x) ∧
      ((∀ a ∈ available, strStartsWith a "zh" = false) →
        (∀ x rest2, available = x :: rest2 →
           select_fallback_language available preferred = x) ∧
        (available = [] → select_fallback_language available preferred = "en"))) := by
  refine ⟨?_, ?_⟩
  · intro x hx
    rw [select_fallback_language, find?_of_firstSuchThat _ _ _ hx]
  · intro hnone
    have hfind : preferred.find? (fun lang => available.contains lang) = none := by
      rw [List.find?_eq_none]
      intro x hx
      simp only [hnone x hx]
      decide
    refine ⟨?_, ?_⟩
    · intro x hx
      rw [select_fallback_language, hfind, find?_of_firstSuchThat _ _ _ hx]
    · intro hzh
      have hfind2 : available.find? (fun l => strStartsWith l "zh") = none := by
        rw [List.find?_eq_none]
        intro a ha
        simp only [hzh a ha]
        decide
      refine ⟨?_, ?_⟩
      · intro x rest2 hav
        rw [select_fallback_language, hfind, hfind2, hav]
        rfl
      · intro hav
        rw [select_fallback_language, hfind, hfind2, hav]
        rfl

theorem claim_C8_witness :
    select_fallback_language ["es", "zh-HK"] ["fr", "en"] = "zh-HK" := by
  have h := (claim_C8 ["es", "zh-HK"] ["fr", "en"]).2 (by decide)
  exact h.1 "zh-HK" ⟨["es"], [], rfl, by decide, by decide⟩

/-- Claim C9: when the first fetch reports the language-unavailable variant,
the handler consults the fallback selector and retries the fetch exactly
once with the selected language (the call trace is exactly the requested
language followed by the selected one); a failure of that retry is surfaced
unchanged with no further retry; any other first-fetch failure is surfaced
directly with a single fetch call and no selector involvement. -/

theorem claim_C9 {ε : Type} (fetch : String → Except (FetchError ε) (List (List Nat)))
    (requested : String) :
    (∀ langs, fetch requested = Except.error (FetchError.langUnavailable langs) →
      (handle_message_fetch fetch requested).1 =
          [requested, select_fallback_language langs fallbackPreference] ∧
      (∀ t, fetch (select_fallback_language langs fallbackPreference) = Except.ok t →
        (handle_message_fetch fetch requested).2 = MessageOutcome.delivered t) ∧
      (∀ e, fetch (select_fallback_language langs fallbackPreference) = Except.error e →
        (handle_message_fetch fetch requested).2 = MessageOutcome.surfacedError e)) ∧
    (∀ e, fetch requested = Except.error (FetchError.other e) →
      handle_message_fetch fetch requested =
        ([requested], MessageOutcome.surfacedError (FetchError.other e))) ∧
    (∀ t, fetch requested = Except.ok t →
      handle_message_fetch fetch requested = ([requested], MessageOutcome.delivered t)) := by
  refine ⟨?_, ?_, ?_⟩
  · intro langs hl
    refine ⟨?_, ?_, ?_⟩
    · simp only [handle_message_fetch, hl]
      cases hf : fetch (select_fallback_language langs fallbackPreference) <;> simp
    · intro t ht
      simp only [handle_message_fetch, hl, ht]
    · intro e he
      simp only [handle_message_fetch, hl, he]
  · intro e he
    simp only [handle_message_fetch, he]
  · intro t ht
    simp only [handle_message_fetch, ht]

theorem claim_C9_witness :
    (handle_message_fetch fetchW "fr").1 = ["fr", "zh-HK"] ∧
    (handle_message_fetch fetchW "fr").2 =
      MessageOutcome.surfacedError (FetchError.other 7) := by
  have hsel : select_fallback_language ["es", "zh-HK"] fallbackPreference = "zh-HK" := by
    decide
  have h := (claim_C9 fetchW "fr").1 ["es", "zh-HK"] (by rfl)
  constructor
  · rw [h.1, hsel]
  · exact h.2.2 (FetchError.other 7) (by rw [hsel]; rfl)

/-- Claim C10: `select_fallback_language` in src/main.rs and
`TranscriptService::select_fallback_language` in src/transcript.rs are
extensionally equal (they are textually identical). -/

theorem claim_C10 (available preferred : List String) :
    select_fallback_language available preferred =
      TranscriptService.select_fallback_language available preferred := rfl

end Tofuboi
